import Mathlib

/-!
Verification development for the HoVer-Net whole-slide-image tiling and
stitching engine (`hover_net/infer/wsi.py`).  The Python source is embedded
shallowly: numpy integer arithmetic becomes `Int` arithmetic (Python's floor
division `//` and `np.floor(a / b)` become `Int.fdiv`), numpy arrays of
coordinates become `List (ℤ × ℤ)`, label maps become `List (List ℕ)`, and
fallible functions return `Except String`.
-/

/-! ## Coordinate planner: `calculate_patch_coordinates` (wsi.py lines 51-136) -/

/-- Embedding of `np.arange(start, stop, step)` for integer arguments and a
positive step: the list `start, start + step, ...` of length
`max 0 ⌈(stop - start) / step⌉`. -/
def arange (start stop step : ℤ) : List ℤ :=
  (List.range ((stop - start + step - 1).fdiv step).toNat).map
    (fun k : ℕ => start + (k : ℤ) * step)

/-- Per-axis data of `calculate_patch_coordinates`: for one axis of length `s`
with input patch size `i` and output patch size `o`, the list of output
patch top-left coordinates (wsi.py lines 100-123, one axis). -/
def patchAxisCoords (s i o : ℤ) : List ℤ :=
  let d := i - o
  let n := (s - d).fdiv o + 1
  let lastCoord := d.fdiv 2 + n * o
  arange (d.fdiv 2) lastCoord o

/-- Output patch top-left coordinates of `calculate_patch_coordinates`
(wsi.py lines 121-129): `np.meshgrid(y_coords, x_coords)` followed by a
row-major flatten enumerates the cross product with the x axis as the outer
loop and the y axis as the inner loop, each entry being a `(y, x)` pair. -/
def outputPatchCoords (imageShape inputPatchSize outputPatchSize : ℤ × ℤ) :
    List (ℤ × ℤ) :=
  let yCoords := patchAxisCoords imageShape.1 inputPatchSize.1 outputPatchSize.1
  let xCoords := patchAxisCoords imageShape.2 inputPatchSize.2 outputPatchSize.2
  xCoords.flatMap (fun x => yCoords.map (fun y => (y, x)))

/-- Input patch top-left coordinates of `calculate_patch_coordinates`
(wsi.py line 133): output coordinates shifted by `patch_size_difference // 2`
on each axis. -/
def inputPatchCoords (imageShape inputPatchSize outputPatchSize : ℤ × ℤ) :
    List (ℤ × ℤ) :=
  let d0 := inputPatchSize.1 - outputPatchSize.1
  let d1 := inputPatchSize.2 - outputPatchSize.2
  (outputPatchCoords imageShape inputPatchSize outputPatchSize).map
    (fun p => (p.1 - d0.fdiv 2, p.2 - d1.fdiv 2))

/-- Embedding of `calculate_patch_coordinates` (wsi.py lines 51-136).  The
three `ValueError` guards (lines 89-97) are checked, in source order, before
any coordinate computation; on success the function returns the pair
(input top-left list, output top-left list). -/
def calculate_patch_coordinates (imageShape inputPatchSize outputPatchSize : ℤ × ℤ) :
    Except String (List (ℤ × ℤ) × List (ℤ × ℤ)) :=
  if inputPatchSize.1 ≤ 0 ∨ inputPatchSize.2 ≤ 0 ∨
      outputPatchSize.1 ≤ 0 ∨ outputPatchSize.2 ≤ 0 then
    Except.error "Patch sizes must be positive."
  else if inputPatchSize.1 < outputPatchSize.1 ∨ inputPatchSize.2 < outputPatchSize.2 then
    Except.error "Input patch size must be greater than or equal to output patch size."
  else if imageShape.1 < inputPatchSize.1 ∨ imageShape.2 < inputPatchSize.2 then
    Except.error "Image must be larger than the input patch size."
  else
    Except.ok (inputPatchCoords imageShape inputPatchSize outputPatchSize,
      outputPatchCoords imageShape inputPatchSize outputPatchSize)

/-! ## Coordinate planner: `_get_chunk_patch_info` (wsi.py lines 224-302) -/

/-- Embedding of the local helper `round_to_multiple(x, y) = np.floor(x / y) * y`
(wsi.py lines 245-246). -/
def roundToMultiple (x y : ℤ) : ℤ := x.fdiv y * y

/-- Embedding of `_get_chunk_patch_info` (wsi.py lines 224-302).  Each list
entry is a pair (input Box, output Box), a Box being a (top-left,
bottom-right) pair of `(row, col)` coordinates.  The chunk output size is the
chunk input size rounded down so the output is a multiple of the patch output
size; the chunk grid is produced by `calculate_patch_coordinates` and the
bottom-right corners of chunks overhanging the image are clipped and
re-rounded (lines 276-291). -/
def get_chunk_patch_info (imgShape chunkInputShapeArg patchInputShape patchOutputShape : ℤ × ℤ) :
    Except String
      (List (((ℤ × ℤ) × (ℤ × ℤ)) × ((ℤ × ℤ) × (ℤ × ℤ))) ×
       List (((ℤ × ℤ) × (ℤ × ℤ)) × ((ℤ × ℤ) × (ℤ × ℤ)))) := do
  let pd := (patchInputShape.1 - patchOutputShape.1, patchInputShape.2 - patchOutputShape.2)
  let co := (roundToMultiple (chunkInputShapeArg.1 - pd.1) patchOutputShape.1,
             roundToMultiple (chunkInputShapeArg.2 - pd.2) patchOutputShape.2)
  let ci := (co.1 + pd.1, co.2 + pd.2)
  let patchPair ← calculate_patch_coordinates imgShape patchInputShape patchOutputShape
  let patchInfoList := patchPair.1.map (fun tl =>
    ((tl, (tl.1 + patchInputShape.1, tl.2 + patchInputShape.2)),
     ((tl.1 + pd.1, tl.2 + pd.2),
      (tl.1 + pd.1 + patchOutputShape.1, tl.2 + pd.2 + patchOutputShape.2))))
  let chunkPair ← calculate_patch_coordinates imgShape ci co
  let chunkInfoList := chunkPair.1.map (fun tl =>
    let brRaw0 := tl.1 + ci.1
    let brRaw1 := tl.2 + ci.2
    let br0 := if imgShape.1 < brRaw0 then
        roundToMultiple ((imgShape.1 - pd.1) - tl.1) patchOutputShape.1 + tl.1 + pd.1
      else brRaw0
    let br1 := if imgShape.2 < brRaw1 then
        roundToMultiple ((imgShape.2 - pd.2) - tl.2) patchOutputShape.2 + tl.2 + pd.2
      else brRaw1
    ((tl, (br0, br1)),
     ((tl.1 + pd.1.fdiv 2, tl.2 + pd.2.fdiv 2), (br0 - pd.1.fdiv 2, br1 - pd.2.fdiv 2))))
  return (chunkInfoList, patchInfoList)

/-! ## Tissue mask filter: `InferManager.__select_valid_patches` (wsi.py lines 413-440) -/

/-- Embedding of `np.rint` applied to the exact rational `num / den` with
`den > 0`: round to the nearest integer, ties to the even integer (IEEE
round-half-even, the semantics of `np.rint`).  `f` is the floor and
`2 * (num - f * den)` compares the fractional part against `1 / 2`. -/
def rintRat (num den : ℤ) : ℤ :=
  let f := num.fdiv den
  if 2 * (num - f * den) < den then f
  else if den < 2 * (num - f * den) then f + 1
  else if f % 2 = 0 then f else f + 1

/-- Rescaling of a Box by the mask down-sample ratio
`mask.shape[0] / proc_shape[0]` followed by `np.rint` (wsi.py lines 421 and
428-431), with the float arithmetic of the source modelled as exact rational
arithmetic: every coordinate `c` becomes `rint(c * maskH / procH)`. -/
def rescaleBox (maskH procH : ℤ) (b : (ℤ × ℤ) × (ℤ × ℤ)) : (ℤ × ℤ) × (ℤ × ℤ) :=
  ((rintRat (b.1.1 * maskH) procH, rintRat (b.1.2 * maskH) procH),
   (rintRat (b.2.1 * maskH) procH, rintRat (b.2.2 * maskH) procH))

/-- Summed mask value over `wsi_mask[b.tl.1 : b.br.1, b.tl.2 : b.br.2]`
(wsi.py lines 433-437).  The mask is a row-major grid of natural numbers and
numpy slicing with non-negative bounds clips the range to the mask extent,
which `drop`/`take` reproduce. -/
def maskRegionSum (mask : List (List ℕ)) (b : (ℤ × ℤ) × (ℤ × ℤ)) : ℕ :=
  (((mask.drop b.1.1.toNat).take (b.2.1.toNat - b.1.1.toNat)).map
    (fun row => ((row.drop b.1.2.toNat).take (b.2.2.toNat - b.1.2.toNat)).sum)).sum

/-- Embedding of `__select_valid_patches` with `has_output_info=False`
(wsi.py lines 413-440): each candidate is a bare tile Box; the down-sample
ratio is `wsi_mask.shape[0] / wsi_proc_shape[0]`; a candidate is kept iff the
summed mask value over its rescaled Box is strictly positive. -/
def select_valid_tiles (mask : List (List ℕ)) (procShape0 : ℕ)
    (tileList : List ((ℤ × ℤ) × (ℤ × ℤ))) : List ((ℤ × ℤ) × (ℤ × ℤ)) :=
  tileList.filter (fun b =>
    0 < maskRegionSum mask (rescaleBox (mask.length : ℤ) (procShape0 : ℤ) b))

/-- Embedding of `__select_valid_patches` with `has_output_info=True`
(wsi.py lines 413-440): each candidate is an (input Box, output Box) pair and
the mask query uses `patch_info[1]`, the output Box. -/
def select_valid_patches (mask : List (List ℕ)) (procShape0 : ℕ)
    (patchList : List (((ℤ × ℤ) × (ℤ × ℤ)) × ((ℤ × ℤ) × (ℤ × ℤ)))) :
    List (((ℤ × ℤ) × (ℤ × ℤ)) × ((ℤ × ℤ) × (ℤ × ℤ))) :=
  patchList.filter (fun p =>
    0 < maskRegionSum mask (rescaleBox (mask.length : ℤ) (procShape0 : ℤ) p.2))

/-! ## Writer: `_assemble_and_flush` (wsi.py lines 314-335) and the chunk loop
of `InferManager.__get_raw_prediction` (wsi.py lines 442-506) -/

/-- Write one patch result block into the buffer: `pdata` is a row-major grid
written with its top-left at absolute coordinate `tl` (wsi.py lines 326-333,
with the chunk-relative coordinate already composed with the chunk output
top-left). -/
def writePatch {α : Type} (buf : ℤ × ℤ → α) (tl : ℤ × ℤ) (pdata : List (List α)) :
    ℤ × ℤ → α :=
  fun p =>
    if tl.1 ≤ p.1 ∧ p.1 < tl.1 + pdata.length ∧ tl.2 ≤ p.2 ∧
        p.2 < tl.2 + (pdata.getD (p.1 - tl.1).toNat []).length then
      (pdata.getD (p.1 - tl.1).toNat []).getD (p.2 - tl.2).toNat
        (buf p)
    else buf p

/-- Embedding of `_assemble_and_flush` (wsi.py lines 314-335).  The raw
prediction buffer is a total map from absolute `(row, col)` coordinates to
pixel values.  When `patch_output_list` is `none` the function returns with
no assignment at all (the zero-flush at line 322 is commented out in the
source); otherwise every patch block is copied in at the chunk output
top-left plus its chunk-relative coordinate. -/
def assemble_and_flush {α : Type} (buf : ℤ × ℤ → α)
    (chunkInfo : ((ℤ × ℤ) × (ℤ × ℤ)) × ((ℤ × ℤ) × (ℤ × ℤ)))
    (patchOutputList : Option (List ((ℤ × ℤ) × List (List α)))) : ℤ × ℤ → α :=
  match patchOutputList with
  | none => buf
  | some l =>
      l.foldl (fun b pinfo =>
        writePatch b (chunkInfo.2.1.1 + pinfo.1.1, chunkInfo.2.1.2 + pinfo.1.2) pinfo.2) buf

/-- Patch selection for one chunk (wsi.py lines 466-475): the patches whose
input top-left lies inside the chunk (the `masking` predicate, lines 461-471,
both bounds inclusive), further filtered by the tissue mask. -/
def chunkSelectedPatches (mask : List (List ℕ)) (procShape0 : ℕ)
    (patchInputShape : ℤ × ℤ)
    (patchInfoList : List (((ℤ × ℤ) × (ℤ × ℤ)) × ((ℤ × ℤ) × (ℤ × ℤ))))
    (chunkInfo : ((ℤ × ℤ) × (ℤ × ℤ)) × ((ℤ × ℤ) × (ℤ × ℤ))) :
    List (((ℤ × ℤ) × (ℤ × ℤ)) × ((ℤ × ℤ) × (ℤ × ℤ))) :=
  let startCoord := chunkInfo.1.1
  let endCoord := (chunkInfo.1.2.1 - patchInputShape.1, chunkInfo.1.2.2 - patchInputShape.2)
  let sel := patchInfoList.filter (fun p =>
    startCoord.1 ≤ p.1.1.1 && p.1.1.1 ≤ endCoord.1 &&
    startCoord.2 ≤ p.1.1.2 && p.1.1.2 ≤ endCoord.2)
  select_valid_patches mask procShape0 sel

/-- Per-chunk step of `__get_raw_prediction` (wsi.py lines 464-503): when no
patch survives selection, flush `none` and continue (lines 480-485);
otherwise run the model on the survivors and flush the tagged outputs.  The
model run is an external collaborator, abstracted as a function from the
surviving patch list to tagged output blocks. -/
def chunkStep {α : Type} (mask : List (List ℕ)) (procShape0 : ℕ)
    (patchInputShape : ℤ × ℤ)
    (runModel : List (((ℤ × ℤ) × (ℤ × ℤ)) × ((ℤ × ℤ) × (ℤ × ℤ))) →
      List ((ℤ × ℤ) × List (List α)))
    (patchInfoList : List (((ℤ × ℤ) × (ℤ × ℤ)) × ((ℤ × ℤ) × (ℤ × ℤ))))
    (buf : ℤ × ℤ → α)
    (chunkInfo : ((ℤ × ℤ) × (ℤ × ℤ)) × ((ℤ × ℤ) × (ℤ × ℤ))) : ℤ × ℤ → α :=
  let chunkPatchInfoList :=
    chunkSelectedPatches mask procShape0 patchInputShape patchInfoList chunkInfo
  if chunkPatchInfoList.isEmpty then
    assemble_and_flush buf chunkInfo none
  else
    assemble_and_flush buf chunkInfo (some (runModel chunkPatchInfoList))

/-- The chunk loop of `__get_raw_prediction` (wsi.py line 464): chunks are
processed one after the other, each one updating the shared raw prediction
buffer. -/
def getRawPrediction {α : Type} (mask : List (List ℕ)) (procShape0 : ℕ)
    (patchInputShape : ℤ × ℤ)
    (runModel : List (((ℤ × ℤ) × (ℤ × ℤ)) × ((ℤ × ℤ) × (ℤ × ℤ))) →
      List ((ℤ × ℤ) × List (List α)))
    (patchInfoList : List (((ℤ × ℤ) × (ℤ × ℤ)) × ((ℤ × ℤ) × (ℤ × ℤ))))
    (chunkInfoList : List (((ℤ × ℤ) × (ℤ × ℤ)) × ((ℤ × ℤ) × (ℤ × ℤ))))
    (buf : ℤ × ℤ → α) : ℤ × ℤ → α :=
  chunkInfoList.foldl (chunkStep mask procShape0 patchInputShape runModel patchInfoList) buf

/-! ## Post-processing dispatcher: `InferManager.__dispatch_post_processing`
(wsi.py lines 508-559), parallel mode polling loop (lines 543-558) -/

/-- Polling loop of the parallel branch of `__dispatch_post_processing`
(wsi.py lines 543-558).  Completed futures are modelled as a list of
`Except`; the merge callback mutates shared state `S` (the on-disk instance
map and the instance table), so its effects persist even when the phase later
fails.  The loop visits every future: an errored future sets the
`silent_crash` flag, a successful one has the callback applied to its result.
The returned Bool is the flag; `assert not silent_crash` (line 558) raises
afterwards exactly when it is `true`. -/
def dispatchDrain {E R S : Type} (callback : S → R → S) :
    List (Except E R) → S → Bool → S × Bool
  | [], s, crashed => (s, crashed)
  | Except.error _ :: rest, s, _ => dispatchDrain callback rest s true
  | Except.ok r :: rest, s, crashed => dispatchDrain callback rest (callback s r) crashed

/-- Embedding of the parallel-mode result handling of
`__dispatch_post_processing`: drain all completed futures from a clean flag.
The first component is the shared state after all callbacks ran, the second
is whether the phase fails (`assert not silent_crash`). -/
def dispatch_post_processing {E R S : Type} (futureList : List (Except E R))
    (callback : S → R → S) (s : S) : S × Bool :=
  dispatchDrain callback futureList s false

/-! ## Boundary-correct stitcher: `post_proc_fixing_tile_callback`
(wsi.py lines 731-806) -/

/-- A tile-sized region of the instance map: a row-major grid of instance
ids, `0` being background. -/
abbrev Grid : Type := List (List ℕ)

/-- Embedding of `np.unique`: the sorted list of distinct values of a list. -/
def sortedUnique (l : List ℕ) : List ℕ :=
  List.insertionSort (· ≤ ·) l.dedup

/-- Embedding of `_remove_inst` (wsi.py lines 39-48) on a region grid: every
pixel whose id is in `removeIdList` is set to `0`. -/
def remove_inst (g : Grid) (removeIdList : List ℕ) : Grid :=
  g.map (fun row => row.map (fun v => if v ∈ removeIdList then 0 else v))

/-- The one-pixel border of a region in the order the source reads it
(wsi.py lines 760-762): rows `0` and `-1` flattened, then columns `0` and
`-1` flattened. -/
def edgeValues (g : Grid) : List ℕ :=
  (g.headD [] ++ g.getLastD []) ++ g.flatMap (fun row => [row.headD 0, row.getLastD 0])

/-- Pixel value of a grid at `(row, col)`, `0` outside. -/
def gridAt (g : Grid) (p : ℕ × ℕ) : ℕ := (g.getD p.1 []).getD p.2 0

/-- Boolean-mask indexing `pred_inst[roi_inst > 0]` (wsi.py line 777): the
values of `pred` at the positions where `roi` is positive, in row-major
order. -/
def overlapValues (roi pred : Grid) : List ℕ :=
  (roi.zip pred).flatMap (fun rp =>
    (rp.1.zip rp.2).filterMap (fun v => if 0 < v.1 then some v.2 else none))

/-- The id list preserved from the existing map region (wsi.py line 763):
`np.unique(roi_edge)[1:]`, i.e. the sorted distinct border values with the
smallest entry dropped (the comment in the source says this drops the
background). -/
def roiBoundaryInstList (g : Grid) : List ℕ := (sortedUnique (edgeValues g)).tail

/-- The id list removed from the existing map region (wsi.py lines 764-767):
`np.setdiff1d(np.unique(roi_inst)[1:], roi_boundary_inst_list)`. -/
def roiInnerInstList (g : Grid) : List ℕ :=
  ((sortedUnique (g.flatten)).tail).filter (fun v => v ∉ roiBoundaryInstList g)

/-- The surviving (preserved) region block after interior removal
(wsi.py line 768). -/
def survivingRoi (g : Grid) : Grid := remove_inst g (roiInnerInstList g)

/-- Fresh-result ids overlapping a surviving preserved pixel
(wsi.py lines 777-778): `np.unique(pred_inst[roi_inst > 0])`, computed
against the surviving region block. -/
def predBoundaryInstList (roi pred : Grid) : List ℕ :=
  sortedUnique (overlapValues (survivingRoi roi) pred)

/-- Fresh-result ids kept from the tile's own post-processing
(wsi.py lines 779-782): `np.setdiff1d(np.unique(pred_inst)[1:], boundary)`. -/
def predInnerInstList (roi pred : Grid) : List ℕ :=
  ((sortedUnique (pred.flatten)).tail).filter (fun v => v ∉ predBoundaryInstList roi pred)

/-- The kept fresh block: overlapping ids removed, then every positive pixel
offset by `wsi_max_id` (wsi.py lines 783 and 799). -/
def keptPred (roi pred : Grid) (wsiMaxId : ℕ) : Grid :=
  (remove_inst pred (predBoundaryInstList roi pred)).map
    (fun row => row.map (fun v => if 0 < v then v + wsiMaxId else v))

/-- The block written back to the instance map (wsi.py lines 800-803):
`roi_inst + pred_inst`, the elementwise sum of the surviving preserved block
and the kept offset fresh block. -/
def fixTileMerge (roi pred : Grid) (wsiMaxId : ℕ) : Grid :=
  ((survivingRoi roi).zip (keptPred roi pred wsiMaxId)).map
    (fun rp => (rp.1.zip rp.2).map (fun v => v.1 + v.2))

/-- Per-instance metadata: bounding box, contour, centroid, stored in the
`(x, y)` order used by the dictionaries in the source. -/
structure InstInfo where
  bbox : (ℤ × ℤ) × (ℤ × ℤ)
  contour : List (ℤ × ℤ)
  centroid : ℤ × ℤ
deriving DecidableEq, Repr

/-- Coordinate correction of an instance entry (wsi.py lines 794-797), with
`top_left = tile_tl[::-1]` (line 740): the reversed tile top-left is added to
the bbox corners, every contour point, and the centroid. -/
def translateInfo (tileTl : ℤ × ℤ) (info : InstInfo) : InstInfo :=
  let tl := (tileTl.2, tileTl.1)
  { bbox := ((info.bbox.1.1 + tl.1, info.bbox.1.2 + tl.2),
             (info.bbox.2.1 + tl.1, info.bbox.2.2 + tl.2)),
    contour := info.contour.map (fun p => (p.1 + tl.1, p.2 + tl.2)),
    centroid := (info.centroid.1 + tl.1, info.centroid.2 + tl.2) }

/-- Maximum key of the instance info table, `0` when empty
(wsi.py lines 750-752). -/
def tableMaxId (table : List (ℕ × InstInfo)) : ℕ :=
  table.foldl (fun m kv => max m kv.1) 0

/-- Embedding of `post_proc_fixing_tile_callback` (wsi.py lines 731-806),
acting on the tile's region of the instance map (`region`, the pre-state
read at lines 756-758) and the instance info table.  Returns the new region
block and the new table.  Steps, in source order: early return when the
fresh info dict is empty; `wsi_max_id` from the table before any removal;
interior ids removed from the region and popped from the table; fresh ids
overlapping a surviving pixel removed from the fresh block; kept fresh ids
present in the fresh info dict inserted into the table offset by
`wsi_max_id` and translated; the offset fresh block summed onto the
surviving region block. -/
def postProcFixingTileCallback (region : Grid) (table : List (ℕ × InstInfo))
    (predInst : Grid) (instInfoDict : List (ℕ × InstInfo)) (tileTl : ℤ × ℤ) :
    Grid × List (ℕ × InstInfo) :=
  if instInfoDict.isEmpty then (region, table)
  else
    let wsiMaxId := tableMaxId table
    let roiInnerList := roiInnerInstList region
    let table1 := table.filter (fun kv => kv.1 ∉ roiInnerList)
    let innerList := predInnerInstList region predInst
    let table2 := table1 ++ innerList.filterMap (fun id =>
      ((instInfoDict.lookup id).map (fun info =>
        (id + wsiMaxId, translateInfo tileTl info))))
    (fixTileMerge region predInst wsiMaxId, table2)

/-- The flattened pixel values of the clipped rescaled mask region read by
`__select_valid_patches` (the contents of `output_roi`, wsi.py lines
433-436). -/
def regionPixels (mask : List (List ℕ)) (b : (ℤ × ℤ) × (ℤ × ℤ)) : List ℕ :=
  ((mask.drop b.1.1.toNat).take (b.2.1.toNat - b.1.1.toNat)).flatMap
    (fun row => (row.drop b.1.2.toNat).take (b.2.2.toNat - b.1.2.toNat))

/-- Concrete instance metadata used by the concrete evaluations below. -/
def sampleInfoA : InstInfo :=
  { bbox := ((0, 0), (1, 1)), contour := [(0, 0)], centroid := (0, 0) }

/-- Concrete instance metadata used by the concrete evaluations below. -/
def sampleInfoB : InstInfo :=
  { bbox := ((0, 0), (2, 2)), contour := [(1, 1)], centroid := (1, 1) }

/-- Concrete instance metadata used by the concrete evaluations below. -/
def sampleInfoC : InstInfo :=
  { bbox := ((5, 5), (6, 6)), contour := [(5, 5)], centroid := (5, 5) }

/-! # Helper lemmas -/

/-! Basic facts about the axis coordinate list. -/

theorem arange_exact (a o : ℤ) (n : ℕ) (ho : 0 < o) :
    arange a (a + (n : ℤ) * o) o = (List.range n).map (fun k : ℕ => a + (k : ℤ) * o) := by
  unfold arange
  congr 1
  have h1 : a + (n : ℤ) * o - a + o - 1 = (o - 1) + (n : ℤ) * o := by ring
  rw [h1]
  rw [Int.fdiv_eq_ediv _ (le_of_lt ho)]
  rw [Int.add_mul_ediv_right _ _ (ne_of_gt ho)]
  rw [Int.ediv_eq_zero_of_lt (by omega) (by omega)]
  simp

theorem patchAxisCoords_eq (s i o : ℤ) (ho : 0 < o) (hio : o ≤ i) (hsi : i ≤ s) :
    patchAxisCoords s i o =
      (List.range ((s - (i - o)).fdiv o + 1).toNat).map
        (fun k : ℕ => (i - o).fdiv 2 + (k : ℤ) * o) := by
  unfold patchAxisCoords
  have hd : 0 ≤ i - o := by omega
  have hn : 0 ≤ (s - (i - o)).fdiv o := by
    rw [Int.fdiv_eq_ediv _ (le_of_lt ho)]
    exact Int.ediv_nonneg (by omega) (le_of_lt ho)
  have hcast : ((((s - (i - o)).fdiv o + 1).toNat : ℤ)) = (s - (i - o)).fdiv o + 1 := by
    omega
  have := arange_exact ((i - o).fdiv 2) o (((s - (i - o)).fdiv o + 1).toNat) ho
  rw [hcast] at this
  simpa using this

/-- With valid geometry the validation guards all pass and
`calculate_patch_coordinates` succeeds. -/
theorem calculate_patch_coordinates_ok (s i o : ℤ × ℤ)
    (ho1 : 0 < o.1) (ho2 : 0 < o.2) (hio1 : o.1 ≤ i.1) (hio2 : o.2 ≤ i.2)
    (hsi1 : i.1 ≤ s.1) (hsi2 : i.2 ≤ s.2) :
    calculate_patch_coordinates s i o =
      Except.ok (inputPatchCoords s i o, outputPatchCoords s i o) := by
  unfold calculate_patch_coordinates
  rw [if_neg (by omega), if_neg (by omega), if_neg (by omega)]

/-- Every input top-left coordinate is componentwise between `0` and
`image_shape - (input_size - output_size)`. -/
theorem inputPatchCoords_mem_bounds (s i o : ℤ × ℤ)
    (ho1 : 0 < o.1) (ho2 : 0 < o.2) (hio1 : o.1 ≤ i.1) (hio2 : o.2 ≤ i.2)
    (hsi1 : i.1 ≤ s.1) (hsi2 : i.2 ≤ s.2) :
    ∀ p ∈ inputPatchCoords s i o,
      0 ≤ p.1 ∧ 0 ≤ p.2 ∧ p.1 ≤ s.1 - (i.1 - o.1) ∧ p.2 ≤ s.2 - (i.2 - o.2) := by
  intro p hp
  unfold inputPatchCoords outputPatchCoords at hp
  simp only [List.mem_map, List.mem_flatMap] at hp
  obtain ⟨q, ⟨x, hx, y, hy, hq⟩, hpq⟩ := hp
  rw [patchAxisCoords_eq s.1 i.1 o.1 ho1 hio1 hsi1] at hy
  rw [patchAxisCoords_eq s.2 i.2 o.2 ho2 hio2 hsi2] at hx
  obtain ⟨ny, hny, hyv⟩ := List.mem_map.1 hy
  obtain ⟨nx, hnx, hxv⟩ := List.mem_map.1 hx
  rw [List.mem_range] at hny hnx
  subst hq hpq hyv hxv
  dsimp only
  have e1 : (i.1 - o.1).fdiv 2 + (ny : ℤ) * o.1 - (i.1 - o.1).fdiv 2 = (ny : ℤ) * o.1 := by
    ring
  have e2 : (i.2 - o.2).fdiv 2 + (nx : ℤ) * o.2 - (i.2 - o.2).fdiv 2 = (nx : ℤ) * o.2 := by
    ring
  rw [e1, e2]
  have hb1 : ((s.1 - (i.1 - o.1)).fdiv o.1) * o.1 ≤ s.1 - (i.1 - o.1) := by
    rw [Int.fdiv_eq_ediv _ (le_of_lt ho1)]
    exact Int.ediv_mul_le _ (ne_of_gt ho1)
  have hb2 : ((s.2 - (i.2 - o.2)).fdiv o.2) * o.2 ≤ s.2 - (i.2 - o.2) := by
    rw [Int.fdiv_eq_ediv _ (le_of_lt ho2)]
    exact Int.ediv_mul_le _ (ne_of_gt ho2)
  have hn1 : 0 ≤ (s.1 - (i.1 - o.1)).fdiv o.1 := by
    rw [Int.fdiv_eq_ediv _ (le_of_lt ho1)]
    exact Int.ediv_nonneg (by omega) (le_of_lt ho1)
  have hn2 : 0 ≤ (s.2 - (i.2 - o.2)).fdiv o.2 := by
    rw [Int.fdiv_eq_ediv _ (le_of_lt ho2)]
    exact Int.ediv_nonneg (by omega) (le_of_lt ho2)
  have hky1 : (ny : ℤ) ≤ (s.1 - (i.1 - o.1)).fdiv o.1 := by omega
  have hkx1 : (nx : ℤ) ≤ (s.2 - (i.2 - o.2)).fdiv o.2 := by omega
  have hm1 : (ny : ℤ) * o.1 ≤ ((s.1 - (i.1 - o.1)).fdiv o.1) * o.1 :=
    mul_le_mul_of_nonneg_right hky1 (le_of_lt ho1)
  have hm2 : (nx : ℤ) * o.2 ≤ ((s.2 - (i.2 - o.2)).fdiv o.2) * o.2 :=
    mul_le_mul_of_nonneg_right hkx1 (le_of_lt ho2)
  have h01 : 0 ≤ (ny : ℤ) * o.1 := mul_nonneg (Int.natCast_nonneg _) (le_of_lt ho1)
  have h02 : 0 ≤ (nx : ℤ) * o.2 := mul_nonneg (Int.natCast_nonneg _) (le_of_lt ho2)
  exact ⟨h01, h02, by omega, by omega⟩

/-- Length of a cross-product list built by an outer `flatMap` and an inner
`map`. -/
theorem length_flatMap_cross {α β γ : Type} (xs : List α) (ys : List β) (f : α → β → γ) :
    (xs.flatMap (fun x => ys.map (f x))).length = xs.length * ys.length := by
  induction xs with
  | nil => simp
  | cons a l ih =>
      simp only [List.flatMap_cons, List.length_append, List.length_map, ih,
        List.length_cons]
      ring

/-! # Claim theorems -/

/-- C9: `calculate_patch_coordinates` fails exactly when an input or output
patch size is non-positive on some axis, or the input patch size is smaller
than the output patch size on some axis, or the image is smaller than the
input patch size on some axis; the guards run before any coordinate
computation and for every other input the function returns normally. -/
theorem patch_grid_validation_iff (s i o : ℤ × ℤ) :
    (calculate_patch_coordinates s i o).isOk = true ↔
      ¬(i.1 ≤ 0 ∨ i.2 ≤ 0 ∨ o.1 ≤ 0 ∨ o.2 ≤ 0 ∨
        i.1 < o.1 ∨ i.2 < o.2 ∨ s.1 < i.1 ∨ s.2 < i.2) := by
  unfold calculate_patch_coordinates
  split_ifs with h1 h2 h3
  · exact iff_of_false (by simp [Except.isOk, Except.toBool]) (not_not_intro (by omega))
  · exact iff_of_false (by simp [Except.isOk, Except.toBool]) (not_not_intro (by omega))
  · exact iff_of_false (by simp [Except.isOk, Except.toBool]) (not_not_intro (by omega))
  · exact iff_of_true (by simp [Except.isOk, Except.toBool]) (by omega)

/-- C5: with valid geometry, `calculate_patch_coordinates` returns, per axis,
the arithmetic sequence starting at `(input - output) // 2` with stride
`output_size` and exactly `(image - (input - output)) // output + 1` entries;
the returned output list is the full two-dimensional cross product of the two
axis sequences with the column axis as the outer loop and the row axis as the
inner loop; and each input top-left is the corresponding output top-left
minus `(input - output) // 2` per axis. -/
theorem patch_grid_structure (s i o : ℤ × ℤ)
    (ho1 : 0 < o.1) (ho2 : 0 < o.2) (hio1 : o.1 ≤ i.1) (hio2 : o.2 ≤ i.2)
    (hsi1 : i.1 ≤ s.1) (hsi2 : i.2 ≤ s.2) :
    calculate_patch_coordinates s i o =
      Except.ok (inputPatchCoords s i o, outputPatchCoords s i o) ∧
    outputPatchCoords s i o =
      ((List.range ((s.2 - (i.2 - o.2)).fdiv o.2 + 1).toNat).map
        (fun kx : ℕ => (i.2 - o.2).fdiv 2 + (kx : ℤ) * o.2)).flatMap (fun x =>
        ((List.range ((s.1 - (i.1 - o.1)).fdiv o.1 + 1).toNat).map
          (fun ky : ℕ => (i.1 - o.1).fdiv 2 + (ky : ℤ) * o.1)).map (fun y => (y, x))) ∧
    (outputPatchCoords s i o).length =
      ((s.1 - (i.1 - o.1)).fdiv o.1 + 1).toNat * ((s.2 - (i.2 - o.2)).fdiv o.2 + 1).toNat ∧
    inputPatchCoords s i o = (outputPatchCoords s i o).map
      (fun p => (p.1 - (i.1 - o.1).fdiv 2, p.2 - (i.2 - o.2).fdiv 2)) := by
  have hout : outputPatchCoords s i o =
      ((List.range ((s.2 - (i.2 - o.2)).fdiv o.2 + 1).toNat).map
        (fun kx : ℕ => (i.2 - o.2).fdiv 2 + (kx : ℤ) * o.2)).flatMap (fun x =>
        ((List.range ((s.1 - (i.1 - o.1)).fdiv o.1 + 1).toNat).map
          (fun ky : ℕ => (i.1 - o.1).fdiv 2 + (ky : ℤ) * o.1)).map (fun y => (y, x))) := by
    unfold outputPatchCoords
    rw [patchAxisCoords_eq s.1 i.1 o.1 ho1 hio1 hsi1,
        patchAxisCoords_eq s.2 i.2 o.2 ho2 hio2 hsi2]
  refine ⟨calculate_patch_coordinates_ok s i o ho1 ho2 hio1 hio2 hsi1 hsi2, hout, ?_, rfl⟩
  rw [hout, length_flatMap_cross]
  simp [Nat.mul_comm]

/-- Witness for C5 at the end-to-end example `image_shape = (512, 512)`,
`input_size = (256, 256)`, `output_size = (164, 164)`: the call succeeds and
yields 3 patches per axis, 9 in total. -/
theorem patch_grid_structure_witness :
    calculate_patch_coordinates (512, 512) (256, 256) (164, 164) =
      Except.ok (inputPatchCoords (512, 512) (256, 256) (164, 164),
        outputPatchCoords (512, 512) (256, 256) (164, 164)) ∧
    (outputPatchCoords (512, 512) (256, 256) (164, 164)).length = 9 := by
  have h := patch_grid_structure (512, 512) (256, 256) (164, 164)
    (by decide) (by decide) (by decide) (by decide) (by decide) (by decide)
  refine ⟨h.1, ?_⟩
  rw [h.2.2.1]
  decide

/-- C2 counterexample: at `image_shape = (512, 512)`,
`input_size = (256, 256)`, `output_size = (164, 164)` the call succeeds and
the input patch list contains the top-left `(328, 328)`, whose bottom-right
`328 + 256 = 584` exceeds the image extent `512` on both axes, so not every
input patch Box lies within `[0, image_shape)`. -/
theorem patch_grid_bounds_cex :
    calculate_patch_coordinates (512, 512) (256, 256) (164, 164) =
      Except.ok (inputPatchCoords (512, 512) (256, 256) (164, 164),
        outputPatchCoords (512, 512) (256, 256) (164, 164)) ∧
    ((328 : ℤ), (328 : ℤ)) ∈ inputPatchCoords (512, 512) (256, 256) (164, 164) ∧
    ¬((328 : ℤ) + 256 ≤ 512) :=
  ⟨rfl, by decide, by decide⟩

/-- C2 amended: every input patch top-left produced by
`calculate_patch_coordinates` is componentwise non-negative, and its
bottom-right (top-left plus `input_patch_size`) is at most
`image_shape + output_patch_size` on each axis; the far-edge bound
`image_shape` itself does not hold in general. -/
theorem patch_grid_bounds_amended (s i o : ℤ × ℤ)
    (ho1 : 0 < o.1) (ho2 : 0 < o.2) (hio1 : o.1 ≤ i.1) (hio2 : o.2 ≤ i.2)
    (hsi1 : i.1 ≤ s.1) (hsi2 : i.2 ≤ s.2) :
    calculate_patch_coordinates s i o =
      Except.ok (inputPatchCoords s i o, outputPatchCoords s i o) ∧
    ∀ p ∈ inputPatchCoords s i o,
      0 ≤ p.1 ∧ 0 ≤ p.2 ∧ p.1 + i.1 ≤ s.1 + o.1 ∧ p.2 + i.2 ≤ s.2 + o.2 := by
  refine ⟨calculate_patch_coordinates_ok s i o ho1 ho2 hio1 hio2 hsi1 hsi2, ?_⟩
  intro p hp
  have h := inputPatchCoords_mem_bounds s i o ho1 ho2 hio1 hio2 hsi1 hsi2 p hp
  exact ⟨h.1, h.2.1, by omega, by omega⟩

/-- Witness for the amended C2 at the end-to-end example: the patch at
`(328, 328)` satisfies the amended bounds. -/
theorem patch_grid_bounds_amended_witness :
    0 ≤ (328 : ℤ) ∧ (328 : ℤ) + 256 ≤ 512 + 164 := by
  have h := patch_grid_bounds_amended (512, 512) (256, 256) (164, 164)
    (by decide) (by decide) (by decide) (by decide) (by decide) (by decide)
  have hm := h.2 (328, 328) (by decide)
  exact ⟨hm.1, hm.2.2.1⟩

/-- Number of members of an integer arithmetic progression whose half-open
window of width `o` contains the point `p`: one when `p` lies in the overall
span, zero otherwise. -/
theorem countP_arith_seq (a o p : ℤ) (ho : 0 < o) (n : ℕ) :
    ((List.range n).map (fun k : ℕ => a + (k : ℤ) * o)).countP
      (fun t => decide (t ≤ p ∧ p < t + o)) =
    if a ≤ p ∧ p < a + (n : ℤ) * o then 1 else 0 := by
  induction n with
  | zero =>
      simp only [List.range_zero, List.map_nil, List.countP_nil, Nat.cast_zero, zero_mul,
        add_zero]
      rw [if_neg (by omega)]
  | succ n ih =>
      rw [List.range_succ, List.map_append, List.countP_append, ih]
      simp only [List.map_cons, List.map_nil, List.countP_cons, List.countP_nil,
        decide_eq_true_eq, Nat.cast_succ]
      have hsucc : ((n : ℤ) + 1) * o = (n : ℤ) * o + o := by ring
      rw [hsucc]
      have hA : 0 ≤ (n : ℤ) * o := mul_nonneg (Int.natCast_nonneg _) (le_of_lt ho)
      generalize (n : ℤ) * o = A at *
      split_ifs <;> omega

/-- Number of hits of a component-wise predicate on the cross-product list:
the product of the per-axis hit counts. -/
theorem countP_cross {α β : Type} (xs : List α) (ys : List β)
    (px : α → Bool) (py : β → Bool) :
    (xs.flatMap (fun x => ys.map (fun y => (y, x)))).countP
      (fun t => py t.1 && px t.2) = ys.countP py * xs.countP px := by
  induction xs with
  | nil => simp
  | cons a l ih =>
      rw [List.flatMap_cons, List.countP_append, ih]
      have hinner : (ys.map (fun y => (y, a))).countP (fun t => py t.1 && px t.2) =
          if px a then ys.countP py else 0 := by
        rw [List.countP_map]
        by_cases h : px a
        · rw [if_pos h]
          apply List.countP_congr
          intro b _
          simp [Function.comp, h]
        · rw [if_neg h]
          simp [Function.comp, h]
      rw [hinner, List.countP_cons]
      by_cases h : px a
      · simp only [h, if_true, if_pos]
        ring
      · simp [h]

/-- C1 counterexample: at `image_shape = (512, 512)`,
`input_size = (256, 256)`, `output_size = (164, 164)` the call succeeds, the
pixel `(0, 0)` lies inside the image, yet it is covered by zero of the output
patch Boxes — the output Boxes do not tile `image_shape`. -/
theorem patch_grid_coverage_cex :
    calculate_patch_coordinates (512, 512) (256, 256) (164, 164) =
      Except.ok (inputPatchCoords (512, 512) (256, 256) (164, 164),
        outputPatchCoords (512, 512) (256, 256) (164, 164)) ∧
    ((0 : ℤ) ≤ 0 ∧ (0 : ℤ) < 512) ∧
    (outputPatchCoords (512, 512) (256, 256) (164, 164)).countP
      (fun t => decide (t.1 ≤ 0 ∧ (0 : ℤ) < t.1 + 164 ∧ t.2 ≤ 0 ∧ (0 : ℤ) < t.2 + 164)) =
      0 :=
  ⟨rfl, by decide, by decide⟩

/-- C1 amended: the output patch Boxes of `calculate_patch_coordinates` tile,
with no gaps and no overlaps, the rectangle running from
`(input - output) // 2` (inclusive) to
`(input - output) // 2 + num_patches * output_size` (exclusive) on each axis:
every pixel inside that rectangle is covered by exactly one output Box and
every pixel outside it (in particular the top and left margins of the image,
and any image pixel beyond the rectangle) by none.  The rectangle is not
`[0, image_shape)` in general. -/
theorem patch_grid_coverage_amended (s i o : ℤ × ℤ)
    (ho1 : 0 < o.1) (ho2 : 0 < o.2) (hio1 : o.1 ≤ i.1) (hio2 : o.2 ≤ i.2)
    (hsi1 : i.1 ≤ s.1) (hsi2 : i.2 ≤ s.2) :
    calculate_patch_coordinates s i o =
      Except.ok (inputPatchCoords s i o, outputPatchCoords s i o) ∧
    ∀ p : ℤ × ℤ,
      (outputPatchCoords s i o).countP
        (fun t => decide (t.1 ≤ p.1 ∧ p.1 < t.1 + o.1 ∧ t.2 ≤ p.2 ∧ p.2 < t.2 + o.2)) =
      if ((i.1 - o.1).fdiv 2 ≤ p.1 ∧
            p.1 < (i.1 - o.1).fdiv 2 + ((s.1 - (i.1 - o.1)).fdiv o.1 + 1) * o.1) ∧
          ((i.2 - o.2).fdiv 2 ≤ p.2 ∧
            p.2 < (i.2 - o.2).fdiv 2 + ((s.2 - (i.2 - o.2)).fdiv o.2 + 1) * o.2)
      then 1 else 0 := by
  refine ⟨calculate_patch_coordinates_ok s i o ho1 ho2 hio1 hio2 hsi1 hsi2, ?_⟩
  intro p
  have hpred : (fun t : ℤ × ℤ =>
      decide (t.1 ≤ p.1 ∧ p.1 < t.1 + o.1 ∧ t.2 ≤ p.2 ∧ p.2 < t.2 + o.2)) =
      (fun t : ℤ × ℤ => decide (t.1 ≤ p.1 ∧ p.1 < t.1 + o.1) &&
        decide (t.2 ≤ p.2 ∧ p.2 < t.2 + o.2)) := by
    funext t
    simp [Bool.decide_and, Bool.and_assoc]
  rw [hpred]
  unfold outputPatchCoords
  rw [patchAxisCoords_eq s.1 i.1 o.1 ho1 hio1 hsi1,
      patchAxisCoords_eq s.2 i.2 o.2 ho2 hio2 hsi2]
  dsimp only
  rw [countP_cross _ _ (fun x : ℤ => decide (x ≤ p.2 ∧ p.2 < x + o.2))
      (fun y : ℤ => decide (y ≤ p.1 ∧ p.1 < y + o.1))]
  rw [countP_arith_seq _ _ _ ho1, countP_arith_seq _ _ _ ho2]
  have hn1 : 0 ≤ (s.1 - (i.1 - o.1)).fdiv o.1 := by
    rw [Int.fdiv_eq_ediv _ (le_of_lt ho1)]
    exact Int.ediv_nonneg (by omega) (le_of_lt ho1)
  have hn2 : 0 ≤ (s.2 - (i.2 - o.2)).fdiv o.2 := by
    rw [Int.fdiv_eq_ediv _ (le_of_lt ho2)]
    exact Int.ediv_nonneg (by omega) (le_of_lt ho2)
  have hc1 : ((((s.1 - (i.1 - o.1)).fdiv o.1 + 1).toNat : ℤ)) =
      (s.1 - (i.1 - o.1)).fdiv o.1 + 1 := by omega
  have hc2 : ((((s.2 - (i.2 - o.2)).fdiv o.2 + 1).toNat : ℤ)) =
      (s.2 - (i.2 - o.2)).fdiv o.2 + 1 := by omega
  rw [hc1, hc2]
  split_ifs with hA hB <;> first | rfl | (exfalso; tauto)

/-- Witness for the amended C1 at the end-to-end example: the pixel
`(200, 200)` lies inside the tiled rectangle `[46, 538)²` and is covered by
exactly one output Box, and the pixel `(0, 0)` outside it by none. -/
theorem patch_grid_coverage_amended_witness :
    (outputPatchCoords (512, 512) (256, 256) (164, 164)).countP
      (fun t => decide (t.1 ≤ 200 ∧ (200 : ℤ) < t.1 + 164 ∧ t.2 ≤ 200 ∧
        (200 : ℤ) < t.2 + 164)) = 1 ∧
    (outputPatchCoords (512, 512) (256, 256) (164, 164)).countP
      (fun t => decide (t.1 ≤ 0 ∧ (0 : ℤ) < t.1 + 164 ∧ t.2 ≤ 0 ∧
        (0 : ℤ) < t.2 + 164)) = 0 := by
  have h := patch_grid_coverage_amended (512, 512) (256, 256) (164, 164)
    (by decide) (by decide) (by decide) (by decide) (by decide) (by decide)
  constructor
  · rw [h.2 (200, 200)]
    decide
  · rw [h.2 (0, 0)]
    decide

/-- Per-axis bounds on the rounded chunk output size: it is at least one
patch output, at most the available span, and an exact non-negative multiple
of the patch output size. -/
theorem chunkAxis_co_bounds (cA piA poA : ℤ) (hpo : 0 < poA) (hpc : piA ≤ cA) :
    poA ≤ roundToMultiple (cA - (piA - poA)) poA ∧
    roundToMultiple (cA - (piA - poA)) poA ≤ cA - (piA - poA) ∧
    ∃ m : ℤ, 0 ≤ m ∧ roundToMultiple (cA - (piA - poA)) poA = m * poA := by
  unfold roundToMultiple
  rw [Int.fdiv_eq_ediv _ (le_of_lt hpo)]
  have h1 : (1 : ℤ) ≤ (cA - (piA - poA)) / poA := by
    rw [Int.le_ediv_iff_mul_le hpo]
    omega
  exact ⟨by nlinarith, Int.ediv_mul_le _ (ne_of_gt hpo),
    (cA - (piA - poA)) / poA, by omega, rfl⟩

/-- Per-axis behaviour of the clipped chunk bottom-right recomputation
(wsi.py lines 278-291): the new bottom-right stays within the image and the
new chunk size is the patch margin plus a non-negative multiple of the patch
output size. -/
theorem chunkAxis_clip (imgA tlA poA pdA : ℤ) (hpo : 0 < poA)
    (htl : tlA ≤ imgA - pdA) :
    roundToMultiple (imgA - pdA - tlA) poA + tlA + pdA ≤ imgA ∧
    ∃ k : ℤ, 0 ≤ k ∧
      (roundToMultiple (imgA - pdA - tlA) poA + tlA + pdA) - tlA = pdA + k * poA := by
  unfold roundToMultiple
  rw [Int.fdiv_eq_ediv _ (le_of_lt hpo)]
  have h1 : (imgA - pdA - tlA) / poA * poA ≤ imgA - pdA - tlA :=
    Int.ediv_mul_le _ (ne_of_gt hpo)
  have h2 : 0 ≤ (imgA - pdA - tlA) / poA := Int.ediv_nonneg (by omega) (le_of_lt hpo)
  exact ⟨by omega, (imgA - pdA - tlA) / poA, h2, by ring⟩

/-- C4: with valid geometry (positive output patch, patch input between patch
output and chunk input, chunk input within the image), `_get_chunk_patch_info`
succeeds and every returned chunk's input bottom-right stays within the image
on both axes, and its input size is the fixed patch margin
`patch_input - patch_output` plus an exact non-negative multiple of
`patch_output` on each axis, clipped last chunks included. -/
theorem chunk_grid_clipping (img c pi po : ℤ × ℤ)
    (hpo1 : 0 < po.1) (hpo2 : 0 < po.2)
    (hio1 : po.1 ≤ pi.1) (hio2 : po.2 ≤ pi.2)
    (hpc1 : pi.1 ≤ c.1) (hpc2 : pi.2 ≤ c.2)
    (hci1 : c.1 ≤ img.1) (hci2 : c.2 ≤ img.2) :
    (get_chunk_patch_info img c pi po).isOk = true ∧
    ∀ chunks patches,
      get_chunk_patch_info img c pi po = Except.ok (chunks, patches) →
      ∀ ch ∈ chunks,
        ch.1.2.1 ≤ img.1 ∧ ch.1.2.2 ≤ img.2 ∧
        (∃ k : ℤ, 0 ≤ k ∧ ch.1.2.1 - ch.1.1.1 = (pi.1 - po.1) + k * po.1) ∧
        (∃ k : ℤ, 0 ≤ k ∧ ch.1.2.2 - ch.1.1.2 = (pi.2 - po.2) + k * po.2) := by
  have hcoB1 := chunkAxis_co_bounds c.1 pi.1 po.1 hpo1 hpc1
  have hcoB2 := chunkAxis_co_bounds c.2 pi.2 po.2 hpo2 hpc2
  have hcalc1 : calculate_patch_coordinates img pi po =
      Except.ok (inputPatchCoords img pi po, outputPatchCoords img pi po) :=
    calculate_patch_coordinates_ok img pi po hpo1 hpo2 hio1 hio2 (by omega) (by omega)
  have hv3 : (roundToMultiple (c.1 - (pi.1 - po.1)) po.1, roundToMultiple
      (c.2 - (pi.2 - po.2)) po.2).1 ≤ (roundToMultiple (c.1 - (pi.1 - po.1)) po.1 +
        (pi.1 - po.1), roundToMultiple (c.2 - (pi.2 - po.2)) po.2 + (pi.2 - po.2)).1 := by
    simp only
    omega
  have hv4 : (roundToMultiple (c.1 - (pi.1 - po.1)) po.1, roundToMultiple
      (c.2 - (pi.2 - po.2)) po.2).2 ≤ (roundToMultiple (c.1 - (pi.1 - po.1)) po.1 +
        (pi.1 - po.1), roundToMultiple (c.2 - (pi.2 - po.2)) po.2 + (pi.2 - po.2)).2 := by
    simp only
    omega
  have hv5 : (roundToMultiple (c.1 - (pi.1 - po.1)) po.1 + (pi.1 - po.1),
      roundToMultiple (c.2 - (pi.2 - po.2)) po.2 + (pi.2 - po.2)).1 ≤ img.1 := by
    simp only
    omega
  have hv6 : (roundToMultiple (c.1 - (pi.1 - po.1)) po.1 + (pi.1 - po.1),
      roundToMultiple (c.2 - (pi.2 - po.2)) po.2 + (pi.2 - po.2)).2 ≤ img.2 := by
    simp only
    omega
  have hcalc2 : calculate_patch_coordinates img
      (roundToMultiple (c.1 - (pi.1 - po.1)) po.1 + (pi.1 - po.1),
       roundToMultiple (c.2 - (pi.2 - po.2)) po.2 + (pi.2 - po.2))
      (roundToMultiple (c.1 - (pi.1 - po.1)) po.1,
       roundToMultiple (c.2 - (pi.2 - po.2)) po.2) =
      Except.ok (inputPatchCoords img
        (roundToMultiple (c.1 - (pi.1 - po.1)) po.1 + (pi.1 - po.1),
         roundToMultiple (c.2 - (pi.2 - po.2)) po.2 + (pi.2 - po.2))
        (roundToMultiple (c.1 - (pi.1 - po.1)) po.1,
         roundToMultiple (c.2 - (pi.2 - po.2)) po.2),
        outputPatchCoords img
        (roundToMultiple (c.1 - (pi.1 - po.1)) po.1 + (pi.1 - po.1),
         roundToMultiple (c.2 - (pi.2 - po.2)) po.2 + (pi.2 - po.2))
        (roundToMultiple (c.1 - (pi.1 - po.1)) po.1,
         roundToMultiple (c.2 - (pi.2 - po.2)) po.2)) :=
    calculate_patch_coordinates_ok img _ _
      (lt_of_lt_of_le hpo1 hcoB1.1) (lt_of_lt_of_le hpo2 hcoB2.1) hv3 hv4 hv5 hv6
  constructor
  · unfold get_chunk_patch_info
    rw [hcalc1]
    simp only [Except.bind, bind]
    rw [hcalc2]
    rfl
  · intro chunks patches h ch hch
    unfold get_chunk_patch_info at h
    rw [hcalc1] at h
    simp only [Except.bind, bind] at h
    rw [hcalc2] at h
    simp only [Except.bind, bind, pure, Except.pure, Except.ok.injEq, Prod.mk.injEq] at h
    obtain ⟨hchunks, hpatches⟩ := h
    subst hchunks
    obtain ⟨tl, htl, rfl⟩ := List.mem_map.1 hch
    have htlB := inputPatchCoords_mem_bounds img
      (roundToMultiple (c.1 - (pi.1 - po.1)) po.1 + (pi.1 - po.1),
       roundToMultiple (c.2 - (pi.2 - po.2)) po.2 + (pi.2 - po.2))
      (roundToMultiple (c.1 - (pi.1 - po.1)) po.1,
       roundToMultiple (c.2 - (pi.2 - po.2)) po.2)
      (lt_of_lt_of_le hpo1 hcoB1.1) (lt_of_lt_of_le hpo2 hcoB2.1) hv3 hv4 hv5 hv6 tl htl
    simp only at htlB
    have hclip1 := chunkAxis_clip img.1 tl.1 po.1 (pi.1 - po.1) hpo1 (by omega)
    have hclip2 := chunkAxis_clip img.2 tl.2 po.2 (pi.2 - po.2) hpo2 (by omega)
    obtain ⟨m1, hm1, hm1e⟩ := hcoB1.2.2
    obtain ⟨m2, hm2, hm2e⟩ := hcoB2.2.2
    dsimp only
    have hax1 : (if img.1 < tl.1 + (roundToMultiple (c.1 - (pi.1 - po.1)) po.1 +
          (pi.1 - po.1)) then
          roundToMultiple (img.1 - (pi.1 - po.1) - tl.1) po.1 + tl.1 + (pi.1 - po.1)
        else tl.1 + (roundToMultiple (c.1 - (pi.1 - po.1)) po.1 + (pi.1 - po.1))) ≤ img.1 ∧
        ∃ k : ℤ, 0 ≤ k ∧ (if img.1 < tl.1 + (roundToMultiple (c.1 - (pi.1 - po.1)) po.1 +
          (pi.1 - po.1)) then
          roundToMultiple (img.1 - (pi.1 - po.1) - tl.1) po.1 + tl.1 + (pi.1 - po.1)
        else tl.1 + (roundToMultiple (c.1 - (pi.1 - po.1)) po.1 + (pi.1 - po.1))) - tl.1 =
          (pi.1 - po.1) + k * po.1 := by
      by_cases hb : img.1 < tl.1 + (roundToMultiple (c.1 - (pi.1 - po.1)) po.1 +
          (pi.1 - po.1))
      · rw [if_pos hb]
        exact ⟨hclip1.1, hclip1.2⟩
      · rw [if_neg hb]
        exact ⟨by omega, m1, hm1, by omega⟩
    have hax2 : (if img.2 < tl.2 + (roundToMultiple (c.2 - (pi.2 - po.2)) po.2 +
          (pi.2 - po.2)) then
          roundToMultiple (img.2 - (pi.2 - po.2) - tl.2) po.2 + tl.2 + (pi.2 - po.2)
        else tl.2 + (roundToMultiple (c.2 - (pi.2 - po.2)) po.2 + (pi.2 - po.2))) ≤ img.2 ∧
        ∃ k : ℤ, 0 ≤ k ∧ (if img.2 < tl.2 + (roundToMultiple (c.2 - (pi.2 - po.2)) po.2 +
          (pi.2 - po.2)) then
          roundToMultiple (img.2 - (pi.2 - po.2) - tl.2) po.2 + tl.2 + (pi.2 - po.2)
        else tl.2 + (roundToMultiple (c.2 - (pi.2 - po.2)) po.2 + (pi.2 - po.2))) - tl.2 =
          (pi.2 - po.2) + k * po.2 := by
      by_cases hb : img.2 < tl.2 + (roundToMultiple (c.2 - (pi.2 - po.2)) po.2 +
          (pi.2 - po.2))
      · rw [if_pos hb]
        exact ⟨hclip2.1, hclip2.2⟩
      · rw [if_neg hb]
        exact ⟨by omega, m2, hm2, by omega⟩
    exact ⟨hax1.1, hax2.1, hax1.2, hax2.2⟩

/-- Witness for C4 at `image = (600, 600)`, `chunk_input = (512, 512)`,
`patch_input = (256, 256)`, `patch_output = (164, 164)`, a configuration in
which the far chunks are clipped. -/
theorem chunk_grid_clipping_witness :
    (get_chunk_patch_info (600, 600) (512, 512) (256, 256) (164, 164)).isOk = true :=
  (chunk_grid_clipping (600, 600) (512, 512) (256, 256) (164, 164)
    (by decide) (by decide) (by decide) (by decide)
    (by decide) (by decide) (by decide) (by decide)).1

/-- The row-by-row sum read by the mask filter equals the sum of the
flattened region pixels. -/
theorem maskRegionSum_eq (mask : List (List ℕ)) (b : (ℤ × ℤ) × (ℤ × ℤ)) :
    maskRegionSum mask b = (regionPixels mask b).sum := by
  unfold maskRegionSum regionPixels
  generalize (mask.drop b.1.1.toNat).take (b.2.1.toNat - b.1.1.toNat) = rows
  induction rows with
  | nil => simp
  | cons r l ih => simp [List.flatMap_cons, List.sum_append, ih]

/-- C6: the tissue mask filter keeps a candidate iff the summed mask value
over the candidate's Box — rescaled by the mask-to-processing ratio, rounded
to nearest and clipped to the mask extent — is strictly positive; the
filtered list is a subsequence of the input preserving relative order; a Box
whose rescaled region holds only zero mask pixels is always excluded, and a
Box whose (non-empty) rescaled region holds only positive mask pixels is
always included.  Both the bare-Box form (tiles) and the
(input Box, output Box) form, which queries the output Box, are covered. -/
theorem mask_filter_selection (mask : List (List ℕ)) (procShape0 : ℕ)
    (tiles : List ((ℤ × ℤ) × (ℤ × ℤ)))
    (patches : List (((ℤ × ℤ) × (ℤ × ℤ)) × ((ℤ × ℤ) × (ℤ × ℤ)))) :
    (select_valid_tiles mask procShape0 tiles).Sublist tiles ∧
    (select_valid_patches mask procShape0 patches).Sublist patches ∧
    (∀ b, b ∈ select_valid_tiles mask procShape0 tiles ↔
      b ∈ tiles ∧ 0 < maskRegionSum mask
        (rescaleBox (mask.length : ℤ) (procShape0 : ℤ) b)) ∧
    (∀ p, p ∈ select_valid_patches mask procShape0 patches ↔
      p ∈ patches ∧ 0 < maskRegionSum mask
        (rescaleBox (mask.length : ℤ) (procShape0 : ℤ) p.2)) ∧
    (∀ b ∈ tiles,
      (∀ v ∈ regionPixels mask (rescaleBox (mask.length : ℤ) (procShape0 : ℤ) b),
        v = 0) →
      b ∉ select_valid_tiles mask procShape0 tiles) ∧
    (∀ b ∈ tiles,
      regionPixels mask (rescaleBox (mask.length : ℤ) (procShape0 : ℤ) b) ≠ [] →
      (∀ v ∈ regionPixels mask (rescaleBox (mask.length : ℤ) (procShape0 : ℤ) b),
        0 < v) →
      b ∈ select_valid_tiles mask procShape0 tiles) := by
  have hmemT : ∀ b, b ∈ select_valid_tiles mask procShape0 tiles ↔
      b ∈ tiles ∧ 0 < maskRegionSum mask
        (rescaleBox (mask.length : ℤ) (procShape0 : ℤ) b) := by
    intro b
    unfold select_valid_tiles
    rw [List.mem_filter]
    simp [decide_eq_true_eq]
  have hmemP : ∀ p, p ∈ select_valid_patches mask procShape0 patches ↔
      p ∈ patches ∧ 0 < maskRegionSum mask
        (rescaleBox (mask.length : ℤ) (procShape0 : ℤ) p.2) := by
    intro p
    unfold select_valid_patches
    rw [List.mem_filter]
    simp [decide_eq_true_eq]
  refine ⟨List.filter_sublist _, List.filter_sublist _, hmemT, hmemP, ?_, ?_⟩
  · intro b _ hzero hmem
    have h := (hmemT b).1 hmem
    rw [maskRegionSum_eq] at h
    have : (regionPixels mask (rescaleBox (mask.length : ℤ) (procShape0 : ℤ) b)).sum
        = 0 := List.sum_eq_zero_iff.2 hzero
    omega
  · intro b hb hne hpos
    refine (hmemT b).2 ⟨hb, ?_⟩
    rw [maskRegionSum_eq]
    obtain ⟨v, hv⟩ := List.exists_mem_of_ne_nil _ hne
    have hle := List.single_le_sum (fun x _ => Nat.zero_le x) v hv
    have := hpos v hv
    omega

/-- Witness for C6: with the one-pixel mask `[[1]]`, processing shape `1` and
the single candidate Box `((0,0),(1,1))` (rescaled region non-empty and all
positive), the candidate is included. -/
theorem mask_filter_selection_witness :
    ((0, 0), (1, 1)) ∈ select_valid_tiles [[1]] 1 [((0, 0), (1, 1))] := by
  have h := mask_filter_selection [[1]] 1 [((0, 0), (1, 1))] []
  exact h.2.2.2.2.2 ((0, 0), (1, 1)) (by decide) (by decide) (by decide)

/-- C7: for a chunk whose patch selection (coordinate masking followed by the
tissue mask filter) leaves no patches, the chunk step passes `none` to the
writer, the writer leaves the whole raw prediction buffer untouched — no
element is written — and the chunk loop continues with the remaining chunks
exactly as if the chunk's step had not happened. -/
theorem empty_chunk_untouched {α : Type} (mask : List (List ℕ)) (procShape0 : ℕ)
    (patchInputShape : ℤ × ℤ)
    (runModel : List (((ℤ × ℤ) × (ℤ × ℤ)) × ((ℤ × ℤ) × (ℤ × ℤ))) →
      List ((ℤ × ℤ) × List (List α)))
    (patchInfoList : List (((ℤ × ℤ) × (ℤ × ℤ)) × ((ℤ × ℤ) × (ℤ × ℤ))))
    (buf : ℤ × ℤ → α)
    (chunkInfo : ((ℤ × ℤ) × (ℤ × ℤ)) × ((ℤ × ℤ) × (ℤ × ℤ)))
    (rest : List (((ℤ × ℤ) × (ℤ × ℤ)) × ((ℤ × ℤ) × (ℤ × ℤ))))
    (hsel : chunkSelectedPatches mask procShape0 patchInputShape patchInfoList
      chunkInfo = []) :
    chunkStep mask procShape0 patchInputShape runModel patchInfoList buf chunkInfo =
      assemble_and_flush buf chunkInfo none ∧
    assemble_and_flush buf chunkInfo (none : Option (List ((ℤ × ℤ) × List (List α)))) =
      buf ∧
    getRawPrediction mask procShape0 patchInputShape runModel patchInfoList
      (chunkInfo :: rest) buf =
      getRawPrediction mask procShape0 patchInputShape runModel patchInfoList rest buf := by
  have hstep : chunkStep mask procShape0 patchInputShape runModel patchInfoList buf
      chunkInfo = assemble_and_flush buf chunkInfo none := by
    unfold chunkStep
    rw [hsel]
    rfl
  refine ⟨hstep, rfl, ?_⟩
  unfold getRawPrediction
  rw [List.foldl_cons, hstep]
  rfl

/-- Witness for C7: a single chunk over an all-zero mask selects no patch and
the buffer value at `(0, 0)` is exactly the uninitialized value it held. -/
theorem empty_chunk_untouched_witness :
    getRawPrediction (α := ℕ) [[0]] 4 (2, 2) (fun _ => []) [(((0, 0), (4, 4)),
      ((1, 1), (3, 3)))] [(((0, 0), (4, 4)), ((1, 1), (3, 3)))] (fun _ => 37) =
      (fun _ => 37) := by
  have h := empty_chunk_untouched (α := ℕ) [[0]] 4 (2, 2) (fun _ => [])
    [(((0, 0), (4, 4)), ((1, 1), (3, 3)))] (fun _ => 37)
    (((0, 0), (4, 4)), ((1, 1), (3, 3))) [] (by decide)
  exact h.2.2

/-- C8 counterexample: with one successfully completed tile and one errored
tile, the dispatcher's polling loop does flag the failure (the phase raises),
but the merge callback for the successful tile has already run and its effect
on the shared state is committed — the final state `1` differs from the
initial state `0`, so a partial merge is performed for the failed phase. -/
theorem dispatcher_partial_merge_cex :
    (dispatch_post_processing [Except.ok 5, Except.error (0 : ℕ)]
      (fun (s : ℕ) (_ : ℕ) => s + 1) 0).2 = true ∧
    (dispatch_post_processing [Except.ok 5, Except.error (0 : ℕ)]
      (fun (s : ℕ) (_ : ℕ) => s + 1) 0).1 ≠ 0 := by
  exact ⟨rfl, by decide⟩

/-- C8 amended: the dispatcher drains every completed future; the merge
callback is invoked, in completion order, on every successful result —
including results observed after a failure — so their effects on the shared
state are committed; and after the drain the phase fails (the
`assert not silent_crash` raises) precisely when some future errored. -/
theorem dispatcher_drain_then_fail {E R S : Type} (futureList : List (Except E R))
    (callback : S → R → S) (s : S) :
    dispatch_post_processing futureList callback s =
      (futureList.foldl (fun acc f =>
        match f with
        | Except.ok r => callback acc r
        | Except.error _ => acc) s,
       futureList.any (fun f =>
        match f with
        | Except.ok _ => false
        | Except.error _ => true)) := by
  unfold dispatch_post_processing
  suffices h : ∀ (l : List (Except E R)) (st : S) (b : Bool),
      dispatchDrain callback l st b =
        (l.foldl (fun acc f =>
          match f with
          | Except.ok r => callback acc r
          | Except.error _ => acc) st,
         b || l.any (fun f =>
          match f with
          | Except.ok _ => false
          | Except.error _ => true)) by
    rw [h futureList s false]
    simp
  intro l
  induction l with
  | nil =>
      intro st b
      simp [dispatchDrain]
  | cons f rest ih =>
      intro st b
      cases f with
      | ok r =>
          simp only [dispatchDrain, ih, List.foldl_cons, List.any_cons, Bool.false_or]
      | error e =>
          simp only [dispatchDrain, ih, List.foldl_cons, List.any_cons, Bool.true_or,
            Bool.or_true]

/-- C3: evaluation of the fix-up callback at a region whose one-pixel border
contains no background pixel.  In the 3-by-3 region `[[2,2,2],[2,1,2],[2,2,2]]`
the id `2` occupies the whole border, yet `np.unique(roi_edge)[1:]` drops the
smallest value of the border — here the real instance `2` rather than the
background `0` it is meant to exclude — so the preserved list is empty, the
interior list is `[2]`, and the callback deletes the border-touching id `2`
from both the map region and the table while the truly interior id `1`
survives: the opposite of the claimed preservation rule. -/
theorem fixup_border_id_dropped :
    (2 : ℕ) ∈ edgeValues [[2, 2, 2], [2, 1, 2], [2, 2, 2]] ∧
    roiBoundaryInstList [[2, 2, 2], [2, 1, 2], [2, 2, 2]] = [] ∧
    roiInnerInstList [[2, 2, 2], [2, 1, 2], [2, 2, 2]] = [2] ∧
    (postProcFixingTileCallback [[2, 2, 2], [2, 1, 2], [2, 2, 2]]
      [(1, sampleInfoA), (2, sampleInfoB)] [[0, 0, 0], [0, 1, 0], [0, 0, 0]]
      [(1, sampleInfoC)] (0, 0)).1 = [[0, 0, 0], [0, 1, 0], [0, 0, 0]] ∧
    ((postProcFixingTileCallback [[2, 2, 2], [2, 1, 2], [2, 2, 2]]
      [(1, sampleInfoA), (2, sampleInfoB)] [[0, 0, 0], [0, 1, 0], [0, 0, 0]]
      [(1, sampleInfoC)] (0, 0)).2).map Prod.fst = [1] := by
  refine ⟨by decide, by decide, by decide, by decide, by decide⟩

/-- Membership in `np.unique` of a value list. -/
theorem mem_sortedUnique (a : ℕ) (l : List ℕ) : a ∈ sortedUnique l ↔ a ∈ l := by
  unfold sortedUnique
  rw [(List.perm_insertionSort (· ≤ ·) l.dedup).mem_iff, List.mem_dedup]

/-- Reading a mapped row at an index commutes with the map when the map fixes
the default value `0`. -/
theorem getD_map_zero (f : ℕ → ℕ) (hf : f 0 = 0) (l : List ℕ) :
    ∀ x : ℕ, (l.map f).getD x 0 = f (l.getD x 0) := by
  induction l with
  | nil =>
      intro x
      simp [hf]
  | cons a t ih =>
      intro x
      cases x with
      | zero => simp
      | succ n => simpa using ih n

/-- Reading a row-mapped grid at a row index commutes with the row map when
the row map fixes `[]`. -/
theorem getD_map_list (fr : List ℕ → List ℕ) (hfr : fr [] = []) (g : Grid) :
    ∀ y : ℕ, (g.map fr).getD y [] = fr (g.getD y []) := by
  induction g with
  | nil =>
      intro y
      simp [hfr]
  | cons r t ih =>
      intro y
      cases y with
      | zero => simp
      | succ n => simpa using ih n

/-- Pixel view of a per-pixel grid map that fixes `0`. -/
theorem gridAt_pixelMap (f : ℕ → ℕ) (hf : f 0 = 0) (g : Grid) (y x : ℕ) :
    gridAt (g.map (fun row => row.map f)) (y, x) = f (gridAt g (y, x)) := by
  unfold gridAt
  rw [getD_map_list (fun row => row.map f) rfl g y]
  exact getD_map_zero f hf (g.getD y []) x

/-- Pixel view of `_remove_inst`. -/
theorem gridAt_remove_inst (g : Grid) (ids : List ℕ) (y x : ℕ) :
    gridAt (remove_inst g ids) (y, x) =
      if gridAt g (y, x) ∈ ids then 0 else gridAt g (y, x) := by
  unfold remove_inst
  exact gridAt_pixelMap (fun v => if v ∈ ids then 0 else v) (by simp) g y x

/-- Row version of the boolean-mask read `pred[roi > 0]`: a positive pixel of
`roi` in a row contributes the aligned `pred` value. -/
theorem mem_row_overlap (r s : List ℕ) (hlen : r.length = s.length) :
    ∀ x : ℕ, 0 < r.getD x 0 →
      s.getD x 0 ∈ (r.zip s).filterMap
        (fun v => if 0 < v.1 then some v.2 else none) := by
  induction r generalizing s with
  | nil =>
      intro x hx
      simp at hx
  | cons a t ih =>
      intro x hx
      cases s with
      | nil => simp at hlen
      | cons b u =>
          rw [List.zip_cons_cons, List.filterMap_cons]
          cases x with
          | zero =>
              simp only [List.getD_cons_zero] at hx ⊢
              rw [if_pos hx]
              exact List.mem_cons_self _ _
          | succ n =>
              simp only [List.getD_cons_succ] at hx ⊢
              have hmem := ih u (by simpa using hlen) n hx
              split
              · exact hmem
              · exact List.mem_cons_of_mem _ hmem

/-- A positive pixel of `roi` puts the aligned `pred` value into
`overlapValues roi pred`. -/
theorem mem_overlapValues (roi pred : Grid)
    (hlen : roi.length = pred.length)
    (hrows : ∀ k, (roi.getD k []).length = (pred.getD k []).length) :
    ∀ y x : ℕ, 0 < gridAt roi (y, x) →
      gridAt pred (y, x) ∈ overlapValues roi pred := by
  induction roi generalizing pred with
  | nil =>
      intro y x hx
      unfold gridAt at hx
      simp at hx
  | cons r t ih =>
      intro y x hx
      cases pred with
      | nil => simp at hlen
      | cons s u =>
          unfold overlapValues
          rw [List.zip_cons_cons, List.flatMap_cons]
          cases y with
          | zero =>
              unfold gridAt at hx ⊢
              simp only [List.getD_cons_zero] at hx ⊢
              exact List.mem_append_left _
                (mem_row_overlap r s (by simpa using hrows 0) x hx)
          | succ n =>
              unfold gridAt at hx ⊢
              simp only [List.getD_cons_succ] at hx ⊢
              refine List.mem_append_right _ ?_
              have := ih u (by simpa using hlen) (fun k => by simpa using hrows (k + 1))
                n x hx
              unfold overlapValues at this
              unfold gridAt at this
              exact this

/-- Row version of the elementwise sum. -/
theorem row_zip_add (r s : List ℕ) (hlen : r.length = s.length) :
    ∀ x : ℕ, ((r.zip s).map (fun v => v.1 + v.2)).getD x 0 =
      r.getD x 0 + s.getD x 0 := by
  induction r generalizing s with
  | nil =>
      intro x
      cases s with
      | nil => simp
      | cons b u => simp at hlen
  | cons a t ih =>
      intro x
      cases s with
      | nil => simp at hlen
      | cons b u =>
          rw [List.zip_cons_cons, List.map_cons]
          cases x with
          | zero => simp
          | succ n =>
              simp only [List.getD_cons_succ]
              exact ih u (by simpa using hlen) n

/-- Pixel view of the elementwise grid sum `roi_inst + pred_inst`. -/
theorem gridAt_zip_add (g h : Grid) (hlen : g.length = h.length)
    (hrows : ∀ k, (g.getD k []).length = (h.getD k []).length) :
    ∀ y x : ℕ, gridAt ((g.zip h).map (fun rp =>
      (rp.1.zip rp.2).map (fun v => v.1 + v.2))) (y, x) =
      gridAt g (y, x) + gridAt h (y, x) := by
  induction g generalizing h with
  | nil =>
      intro y x
      cases h with
      | nil =>
          unfold gridAt
          simp
      | cons s u => simp at hlen
  | cons r t ih =>
      intro y x
      cases h with
      | nil => simp at hlen
      | cons s u =>
          rw [List.zip_cons_cons, List.map_cons]
          cases y with
          | zero =>
              unfold gridAt
              simp only [List.getD_cons_zero]
              exact row_zip_add r s (by simpa using hrows 0) x
          | succ n =>
              unfold gridAt
              simp only [List.getD_cons_succ]
              have := ih u (by simpa using hlen) (fun k => by simpa using hrows (k + 1)) n x
              unfold gridAt at this
              exact this

/-- A per-pixel grid map keeps the number of rows. -/
theorem pixelMap_length (f : ℕ → ℕ) (g : Grid) :
    (g.map (fun row => row.map f)).length = g.length := List.length_map _ _

/-- A per-pixel grid map keeps every row length. -/
theorem pixelMap_row_length (f : ℕ → ℕ) (g : Grid) (k : ℕ) :
    ((g.map (fun row => row.map f)).getD k []).length = (g.getD k []).length := by
  rw [getD_map_list _ rfl]
  exact List.length_map _ _

/-- At a pixel where the surviving preserved block is positive, the kept
fresh block is zero: the fresh id at such a pixel is in
`np.unique(pred_inst[roi_inst > 0])` and `_remove_inst` erased it before the
offset was applied. -/
theorem keptPred_zero_on_surviving (roi pred : Grid) (m : ℕ)
    (hlen : roi.length = pred.length)
    (hrows : ∀ k, (roi.getD k []).length = (pred.getD k []).length)
    (y x : ℕ) (hpos : 0 < gridAt (survivingRoi roi) (y, x)) :
    gridAt (keptPred roi pred m) (y, x) = 0 := by
  have hslen : (survivingRoi roi).length = pred.length := by
    unfold survivingRoi remove_inst
    simpa using hlen
  have hsrows : ∀ k, ((survivingRoi roi).getD k []).length = (pred.getD k []).length := by
    intro k
    unfold survivingRoi remove_inst
    rw [pixelMap_row_length]
    exact hrows k
  have hmem := mem_overlapValues (survivingRoi roi) pred hslen hsrows y x hpos
  have hB : gridAt pred (y, x) ∈ predBoundaryInstList roi pred := by
    unfold predBoundaryInstList
    exact (mem_sortedUnique _ _).2 hmem
  unfold keptPred
  rw [gridAt_pixelMap _ (by simp), gridAt_remove_inst]
  rw [if_pos hB]
  simp

/-- C10: in the fix-up callback, at every pixel of the tile region at most
one of the surviving preserved block and the kept offset fresh block is
non-zero, so the elementwise sum `roi_inst + pred_inst` written back by the
callback is a true overlay: every result pixel equals the preserved id, the
offset fresh id, or `0`, and never the arithmetic sum of two distinct
non-zero ids. -/
theorem fixup_overlay_disjoint (region predInst : Grid)
    (table instInfoDict : List (ℕ × InstInfo)) (tileTl : ℤ × ℤ)
    (hdict : instInfoDict.isEmpty = false)
    (hlen : region.length = predInst.length)
    (hrows : ∀ k, (region.getD k []).length = (predInst.getD k []).length) :
    (postProcFixingTileCallback region table predInst instInfoDict tileTl).1 =
      fixTileMerge region predInst (tableMaxId table) ∧
    ∀ y x : ℕ,
      (gridAt (survivingRoi region) (y, x) = 0 ∨
        gridAt (keptPred region predInst (tableMaxId table)) (y, x) = 0) ∧
      gridAt (fixTileMerge region predInst (tableMaxId table)) (y, x) =
        gridAt (survivingRoi region) (y, x) +
          gridAt (keptPred region predInst (tableMaxId table)) (y, x) ∧
      (gridAt (fixTileMerge region predInst (tableMaxId table)) (y, x) =
          gridAt (survivingRoi region) (y, x) ∨
        gridAt (fixTileMerge region predInst (tableMaxId table)) (y, x) =
          gridAt (keptPred region predInst (tableMaxId table)) (y, x)) := by
  constructor
  · unfold postProcFixingTileCallback
    rw [if_neg (by simp [hdict])]
  · intro y x
    have hglen : (survivingRoi region).length =
        (keptPred region predInst (tableMaxId table)).length := by
      unfold survivingRoi keptPred remove_inst
      simp [hlen]
    have hgrows : ∀ k, ((survivingRoi region).getD k []).length =
        ((keptPred region predInst (tableMaxId table)).getD k []).length := by
      intro k
      unfold survivingRoi keptPred remove_inst
      simp only [pixelMap_row_length]
      exact hrows k
    have hsum := gridAt_zip_add (survivingRoi region)
      (keptPred region predInst (tableMaxId table)) hglen hgrows y x
    have hmerge : gridAt (fixTileMerge region predInst (tableMaxId table)) (y, x) =
        gridAt (survivingRoi region) (y, x) +
          gridAt (keptPred region predInst (tableMaxId table)) (y, x) := by
      unfold fixTileMerge
      exact hsum
    have hdisj : gridAt (survivingRoi region) (y, x) = 0 ∨
        gridAt (keptPred region predInst (tableMaxId table)) (y, x) = 0 := by
      by_cases hpos : 0 < gridAt (survivingRoi region) (y, x)
      · exact Or.inr (keptPred_zero_on_surviving region predInst (tableMaxId table)
          hlen hrows y x hpos)
      · exact Or.inl (by omega)
    refine ⟨hdisj, hmerge, ?_⟩
    rcases hdisj with h0 | h0
    · right
      rw [hmerge, h0, Nat.zero_add]
    · left
      rw [hmerge, h0, Nat.add_zero]

/-- Witness for C10: a concrete tile in which the preserved block keeps id
`2` at pixel `(0, 1)` and the whole fresh instance `3` overlapping it is
discarded, so the two blocks are nowhere simultaneously positive. -/
theorem fixup_overlay_disjoint_witness :
    gridAt (survivingRoi [[0, 2], [0, 0]]) (0, 1) = 0 ∨
    gridAt (keptPred [[0, 2], [0, 0]] [[3, 3], [0, 3]] 2) (0, 1) = 0 := by
  have h := fixup_overlay_disjoint [[0, 2], [0, 0]] [[3, 3], [0, 3]]
    [(1, sampleInfoA), (2, sampleInfoB)] [(3, sampleInfoC)] (0, 0) rfl (by decide)
    (by
      intro k
      rcases k with _ | _ | n <;> rfl)
  exact (h.2 0 1).1
